import Mathlib

/-!
Shallow embedding of the Solana multisig program
(`programs/multisig/src/lib.rs`) and proofs about its proposal
lifecycle: member-set validation, proposal addressing, approval
collection, quorum evaluation, account validation and call forwarding.

Each instruction handler together with the Anchor `#[derive(Accounts)]`
constraints that guard it is embedded as a pure function returning
`Except ProgramError _`.  Anchor evaluates account constraints in
declaration order before the handler body runs, so the constraints
appear as the leading checks of each function, in their source order.
An `Except.error` result models a failed Solana transaction: the host
rolls back every account write, so an error leaves all persisted state
unchanged.  Machine integers are modelled as `Nat` with explicit
reductions: `u8` casts as `% 256` and the `u32` counter increment as
`% 2 ^ 32`.  Identities (`Pubkey`, 32 opaque bytes compared bytewise)
are modelled as `Nat`: the program only compares, orders and stores
them.
-/

namespace SolanaMultisig

/-- A Solana public key: an opaque identity that the program only
compares, orders and stores.  Modelled as `Nat`. -/
abbrev Pubkey := Nat

/-- Rust `SerializableAccountMeta` from the source: one stored
access-descriptor of the call descriptor. -/
structure SerializableAccountMeta where
  pubkey : Pubkey
  is_signer : Bool
  is_writable : Bool
deriving DecidableEq

/-- The `solana_program::instruction::AccountMeta` type, the account entry of a
built instruction. -/
structure AccountMeta where
  pubkey : Pubkey
  is_signer : Bool
  is_writable : Bool
deriving DecidableEq

/-- The `From<SerializableAccountMeta> for AccountMeta` conversion:
copies all three fields. -/
def toAccountMeta (s : SerializableAccountMeta) : AccountMeta :=
  { pubkey := s.pubkey, is_signer := s.is_signer, is_writable := s.is_writable }

/-- Rust `InstructionData` from the source: the stored call descriptor
(target program id, access-descriptors, payload bytes). -/
structure InstructionData where
  program_id : Pubkey
  accounts : List SerializableAccountMeta
  data : List Nat
deriving DecidableEq

/-- The `solana_program::instruction::Instruction` type: the invocable call
handed to `invoke_signed`. -/
structure Instruction where
  program_id : Pubkey
  accounts : List AccountMeta
  data : List Nat
deriving DecidableEq

/-- The `Multisig` account. -/
structure Multisig where
  creator : Pubkey
  nonce : Nat
  members : List Pubkey
  threshold : Nat
  proposals_count : Nat
  bump : Nat
deriving DecidableEq

/-- The `Proposal` account.  `executed`/`cancelled` encode the status:
Pending iff both are false. -/
structure Proposal where
  multisig : Pubkey
  proposer : Pubkey
  instruction : InstructionData
  approvals : List Pubkey
  executed : Bool
  cancelled : Bool
  bump : Nat
deriving DecidableEq

/-- The `MultisigError` enum from the source. -/
inductive MultisigError where
  | InvalidMembers
  | InvalidThreshold
  | NotMember
  | AlreadyApproved
  | NotExecutable
  | NotProposer
  | AlreadyProcessed
  | AccountMismatch
deriving DecidableEq

/-- An error surfaced by an instruction: either one of the program's
custom `MultisigError` codes, or Anchor's raw constraint error (for the
`proposal.multisig == multisig.key()` constraints, which carry no
custom code). -/
inductive ProgramError where
  | custom (e : MultisigError)
  | constraintRaw
deriving DecidableEq

/-- A Proposal's lifecycle status as the spec names it, derived from
the two flags. -/
inductive Status where
  | Pending
  | Executed
  | Cancelled
deriving DecidableEq

/-- Derive the spec-level status from a Proposal's flags. -/
def statusOf (p : Proposal) : Status :=
  if p.executed then .Executed else if p.cancelled then .Cancelled else .Pending

/-- Observable fields of one entry of `ctx.remaining_accounts`: the
caller-supplied account context backing the forwarded call. -/
structure AccountInfoM where
  key : Pubkey
  is_signer : Bool
  is_writable : Bool
deriving DecidableEq

/-- The `u32` modulus, for the `proposals_count += 1` wrap. -/
def U32MOD : Nat := 2 ^ 32

/-- Model of `Vec::sort` on pubkeys: produces the sorted permutation of the
input (pubkeys are totally ordered bytewise; equal elements are
identical, so stability is irrelevant). -/
def sortMembers (l : List Pubkey) : List Pubkey :=
  List.insertionSort (· ≤ ·) l

/-- Model of `Vec::dedup`: removes consecutive repeated elements. -/
def dedupAdj : List Pubkey → List Pubkey
  | [] => []
  | [a] => [a]
  | a :: b :: t => if a = b then dedupAdj (b :: t) else a :: dedupAdj (b :: t)

/-- The `space` constant of the `CreateMultisig` init constraint:
`8 + 32 + 1 + (32 * 10) + 1 + 4 + 1` bytes. -/
def multisigSpace : Nat := 8 + 32 + 1 + 32 * 10 + 1 + 4 + 1

/-- Number of member entries the allocated `Multisig` account reserves
room for, per the source's space comment (`members (max 10)`). -/
def multisigMemberCapacity : Nat := 10

/-- Handler `create_multisig`: sort and dedup the member list, require it
non-empty (`InvalidMembers`), require
`threshold > 0 && threshold <= members.len() as u8`
(`InvalidThreshold`; note the `as u8` truncation of the length), then
persist the Multisig with `proposals_count = 0`. -/
def createMultisig (creator : Pubkey) (nonce : Nat) (members0 : List Pubkey)
    (threshold : Nat) (bump : Nat) : Except ProgramError Multisig :=
  let members := dedupAdj (sortMembers members0)
  if members.isEmpty then .error (.custom .InvalidMembers)
  else if 0 < threshold ∧ threshold ≤ members.length % 256 then
    .ok { creator := creator, nonce := nonce, members := members,
          threshold := threshold, proposals_count := 0, bump := bump }
  else .error (.custom .InvalidThreshold)

/-- Successful result of `propose_transaction`: the updated Multisig,
the freshly initialised Proposal, and the counter value embedded in the
new Proposal's PDA seeds
(`[b"proposal", multisig.key(), proposals_count.to_le_bytes()]`), read
before the increment. -/
structure ProposeOk where
  multisigAfter : Multisig
  proposal : Proposal
  seedCounter : Nat
deriving DecidableEq

/-- Handler `propose_transaction`: require the proposer to be a member
(`NotMember`), initialise the Proposal (call descriptor stored
verbatim, empty approvals, both status flags false, proposer = caller)
at the address derived from the pre-increment `proposals_count`, then
increment the counter.  On error the host rolls everything back, so a
failed creation consumes no counter value. -/
def proposeTransaction (m : Multisig) (mKey : Pubkey) (proposer : Pubkey)
    (instruction_data : InstructionData) (bump : Nat) :
    Except ProgramError ProposeOk :=
  if m.members.contains proposer then
    .ok { multisigAfter := { m with proposals_count := (m.proposals_count + 1) % U32MOD },
          proposal := { multisig := mKey, proposer := proposer,
                        instruction := instruction_data, approvals := [],
                        executed := false, cancelled := false, bump := bump },
          seedCounter := m.proposals_count }
  else .error (.custom .NotMember)

/-- Handler `approve_transaction` with the `ApproveTransaction` constraints, in
source order: `proposal.multisig == multisig.key()` (raw), status flags
(`AlreadyProcessed`), approver membership (`NotMember`); then the
handler: reject a duplicate (`AlreadyApproved`) else push the approver. -/
def approveTransaction (m : Multisig) (mKey : Pubkey) (p : Proposal)
    (approver : Pubkey) : Except ProgramError Proposal :=
  if p.multisig ≠ mKey then .error .constraintRaw
  else if p.executed || p.cancelled then .error (.custom .AlreadyProcessed)
  else if ¬ m.members.contains approver then .error (.custom .NotMember)
  else if p.approvals.contains approver then .error (.custom .AlreadyApproved)
  else .ok { p with approvals := p.approvals ++ [approver] }

/-- The quorum evaluator of the `ExecuteTransaction` constraint: the
cardinality of `BTreeSet` collected from `approvals`, i.e. the number
of distinct entries, recomputed from the list rather than taken from
its stored length. -/
def distinctApprovalCount (p : Proposal) : Nat :=
  p.approvals.dedup.length

/-- Successful effect of `execute_transaction`: the Proposal state at
the moment `invoke_signed` is delegated (already marked executed), the
forwarded instruction, and where the closed Proposal's storage is
reclaimed (`close = multisig`). -/
structure ExecEffect where
  proposalAtInvoke : Proposal
  forwarded : Instruction
  closedTo : Pubkey
deriving DecidableEq

/-- Handler `execute_transaction` with the `ExecuteTransaction` constraints, in
source order: `proposal.multisig == multisig.key()` (raw), status flags
(`AlreadyProcessed`), quorum (`NotExecutable`); then the handler: mark
`executed = true`, rebuild `AccountMeta`s from the stored descriptors,
require the remaining-accounts list to match them in length and in
positional pubkey (`AccountMismatch`; the is-writable/is-signer
comparisons are commented out in the source), build the instruction
from the stored descriptor and delegate it.  The result records the
effect delegated to the host; an error models the rolled-back failed
transaction. -/
def executeTransaction (m : Multisig) (mKey : Pubkey) (p : Proposal)
    (remaining : List AccountInfoM) : Except ProgramError ExecEffect :=
  if p.multisig ≠ mKey then .error .constraintRaw
  else if p.executed || p.cancelled then .error (.custom .AlreadyProcessed)
  else if distinctApprovalCount p < m.threshold then .error (.custom .NotExecutable)
  else
    let p2 : Proposal := { p with executed := true }
    let accounts := p.instruction.accounts.map toAccountMeta
    if accounts.length ≠ remaining.length then .error (.custom .AccountMismatch)
    else if (accounts.zip remaining).all (fun pr => pr.1.pubkey == pr.2.key) then
      .ok { proposalAtInvoke := p2,
            forwarded := { program_id := p.instruction.program_id,
                           accounts := accounts,
                           data := p.instruction.data },
            closedTo := mKey }
    else .error (.custom .AccountMismatch)

/-- The Proposal record persisted after an `execute_transaction`
attempt: `none` when the account was closed (success, storage
reclaimed to the Multisig), `some p` unchanged when the transaction
failed and the host rolled back every write. -/
def proposalAfterExecute (m : Multisig) (mKey : Pubkey) (p : Proposal)
    (remaining : List AccountInfoM) : Option Proposal :=
  match executeTransaction m mKey p remaining with
  | .ok _ => none
  | .error _ => some p

/-- Successful effect of `cancel_transaction`: the Proposal's storage
is reclaimed to the Multisig (`close = multisig`) and no call is
forwarded (the handler body is empty). -/
structure CancelEffect where
  closedTo : Pubkey
  forwarded : Option Instruction
deriving DecidableEq

/-- Handler `cancel_transaction` with the `CancelTransaction` constraints, in
source order: `proposal.multisig == multisig.key()` (raw), status flags
(`AlreadyProcessed`), `proposal.proposer == canceller.key()`
(`NotProposer`); the handler body does nothing, the `close = multisig`
attribute reclaims the storage. -/
def cancelTransaction (m : Multisig) (mKey : Pubkey) (p : Proposal)
    (canceller : Pubkey) : Except ProgramError CancelEffect :=
  if p.multisig ≠ mKey then .error .constraintRaw
  else if p.executed || p.cancelled then .error (.custom .AlreadyProcessed)
  else if p.proposer ≠ canceller then .error (.custom .NotProposer)
  else .ok { closedTo := mKey, forwarded := none }

/-- The Proposal record persisted after a `cancel_transaction` attempt:
`none` when the account was closed (success), `some p` unchanged on a
rolled-back failure. -/
def proposalAfterCancel (m : Multisig) (mKey : Pubkey) (p : Proposal)
    (canceller : Pubkey) : Option Proposal :=
  match cancelTransaction m mKey p canceller with
  | .ok _ => none
  | .error _ => some p

/-- Proposal records reachable through the program: created by a
successful `propose_transaction`, then mutated only by successful
`approve_transaction` calls (the only instruction that writes a live
Proposal's fields). -/
inductive ProposalReachable : Proposal → Prop where
  | created : ∀ (m : Multisig) (mKey proposer : Pubkey)
      (ixd : InstructionData) (bump : Nat) (out : ProposeOk),
      proposeTransaction m mKey proposer ixd bump = .ok out →
      ProposalReachable out.proposal
  | approved : ∀ (m : Multisig) (mKey : Pubkey) (p : Proposal)
      (a : Pubkey) (p2 : Proposal),
      ProposalReachable p → approveTransaction m mKey p a = .ok p2 →
      ProposalReachable p2

/-- Counter values consumed (embedded in Proposal PDA seeds) by a
sequence of `propose_transaction` calls threaded through one Multisig:
returns the final Multisig and the seed counters of the successful
creations, in order.  A failed call leaves the Multisig unchanged and
consumes nothing. -/
def runProposes (m : Multisig) (mKey : Pubkey) :
    List (Pubkey × InstructionData) → Multisig × List Nat
  | [] => (m, [])
  | (proposer, ixd) :: rest =>
    match proposeTransaction m mKey proposer ixd 0 with
    | .ok out =>
      let r := runProposes out.multisigAfter mKey rest
      (r.1, out.seedCounter :: r.2)
    | .error _ => runProposes m mKey rest

deriving instance DecidableEq for Except

/-! ### Helper lemmas about `Vec::sort` + `Vec::dedup` -/

theorem mem_dedupAdj (l : List Pubkey) (x : Pubkey) : x ∈ dedupAdj l ↔ x ∈ l := by
  induction l with
  | nil => simp [dedupAdj]
  | cons a t ih =>
    cases t with
    | nil => simp [dedupAdj]
    | cons b t2 =>
      by_cases hab : a = b
      · subst hab
        have hd : dedupAdj (a :: a :: t2) = dedupAdj (a :: t2) := by
          simp [dedupAdj]
        rw [hd, ih]
        simp only [List.mem_cons]
        tauto
      · simp only [dedupAdj, if_neg hab, List.mem_cons]
        rw [ih]
        simp only [List.mem_cons]

theorem dedupAdj_sorted_lt :
    ∀ l : List Pubkey, l.Sorted (· ≤ ·) → (dedupAdj l).Sorted (· < ·) := by
  intro l
  induction l with
  | nil => intro _; simp [dedupAdj]
  | cons a t ih =>
    cases t with
    | nil => intro _; simp [dedupAdj]
    | cons b t2 =>
      intro h
      have hab : a ≤ b := (List.sorted_cons.mp h).1 b (by simp)
      have ht : (b :: t2).Sorted (· ≤ ·) := (List.sorted_cons.mp h).2
      by_cases he : a = b
      · simpa [dedupAdj, he] using ih ht
      · have hlt : a < b := lt_of_le_of_ne hab he
        simp only [dedupAdj, if_neg he]
        refine List.sorted_cons.mpr ⟨?_, ih ht⟩
        intro c hc
        have hc2 : c ∈ b :: t2 := (mem_dedupAdj _ _).mp hc
        rcases List.mem_cons.mp hc2 with h1 | h1
        · subst h1; exact hlt
        · exact lt_of_lt_of_le hlt ((List.sorted_cons.mp ht).1 c h1)

theorem dedupAdj_eq_nil_iff : ∀ l : List Pubkey, dedupAdj l = [] ↔ l = [] := by
  intro l
  induction l with
  | nil => simp [dedupAdj]
  | cons a t ih =>
    cases t with
    | nil => simp [dedupAdj]
    | cons b t2 =>
      by_cases he : a = b
      · simp only [dedupAdj, if_pos he]
        rw [ih]
        simp
      · simp [dedupAdj, if_neg he]

theorem dedupAdj_eq_self : ∀ l : List Pubkey, l.Nodup → dedupAdj l = l := by
  intro l
  induction l with
  | nil => intro _; simp [dedupAdj]
  | cons a t ih =>
    cases t with
    | nil => intro _; simp [dedupAdj]
    | cons b t2 =>
      intro h
      have hab : a ≠ b := by
        have := (List.nodup_cons.mp h).1
        simp only [List.mem_cons] at this
        tauto
      have ht : (b :: t2).Nodup := (List.nodup_cons.mp h).2
      simp only [dedupAdj, if_neg hab]
      rw [ih ht]

/-- The stored member list: `Vec::sort` followed by `Vec::dedup`. -/
theorem storedMembers_spec (l : List Pubkey) :
    (dedupAdj (sortMembers l)).Sorted (· ≤ ·) ∧ (dedupAdj (sortMembers l)).Nodup ∧
      (∀ x, x ∈ dedupAdj (sortMembers l) ↔ x ∈ l) := by
  have hs : (sortMembers l).Sorted (· ≤ ·) := List.sorted_insertionSort _ l
  have hlt := dedupAdj_sorted_lt _ hs
  refine ⟨hlt.imp le_of_lt, hlt.nodup, ?_⟩
  intro x
  rw [mem_dedupAdj]
  exact (List.perm_insertionSort _ l).mem_iff

/-- C7: for every member list submitted to `create_multisig`, the
stored members sequence is the sorted, duplicate-free version of the
input (sorted, duplicate-free, same underlying set) and is non-empty;
if the list is empty after deduplication, creation fails with
`InvalidMembers` (an error result: no Multisig state is stored). -/
theorem create_multisig_members_valid (creator nonce bump : Nat)
    (members0 : List Pubkey) (threshold : Nat) :
    (∀ ms, createMultisig creator nonce members0 threshold bump = .ok ms →
        ms.members.Sorted (· ≤ ·) ∧ ms.members.Nodup ∧ ms.members ≠ [] ∧
        (∀ x, x ∈ ms.members ↔ x ∈ members0)) ∧
    (dedupAdj (sortMembers members0) = [] →
        createMultisig creator nonce members0 threshold bump =
          .error (.custom .InvalidMembers)) := by
  constructor
  · intro ms h
    simp only [createMultisig] at h
    split at h
    · exact absurd h (by simp)
    · rename_i hne
      split at h
      · rw [Except.ok.injEq] at h
        subst h
        obtain ⟨h1, h2, h3⟩ := storedMembers_spec members0
        refine ⟨h1, h2, ?_, h3⟩
        intro hnil
        have hnil2 : dedupAdj (sortMembers members0) = [] := hnil
        rw [hnil2] at hne
        simp at hne
      · exact absurd h (by simp)
  · intro hnil
    simp [createMultisig, hnil]

/-- Witness for C7 at concrete inputs. -/
theorem create_multisig_members_valid_witness :
    ({ creator := 7, nonce := 1, members := [1, 2, 3], threshold := 2,
       proposals_count := 0, bump := 0 } : Multisig).members.Nodup ∧
    createMultisig 7 1 [] 2 0 = .error (.custom .InvalidMembers) :=
  ⟨((create_multisig_members_valid 7 1 0 [3, 1, 2, 1] 2).1
      { creator := 7, nonce := 1, members := [1, 2, 3], threshold := 2,
        proposals_count := 0, bump := 0 } (by decide)).2.1,
   (create_multisig_members_valid 7 1 0 [] 2).2 (by decide)⟩

theorem sortMembers_eq_nil_iff (l : List Pubkey) : sortMembers l = [] ↔ l = [] := by
  constructor
  · intro h
    have hp := List.perm_insertionSort (· ≤ ·) l
    rw [sortMembers] at h
    rw [h] at hp
    exact hp.symm.eq_nil
  · intro h
    subst h
    rfl

set_option maxRecDepth 100000 in
/-- C8 counterexample: 256 distinct members with threshold 1.  The
deduplicated member count is 256 and the threshold 1 is neither 0 nor
greater than 256, yet `create_multisig` fails with `InvalidThreshold`,
because the handler compares the threshold against
`members.len() as u8`, which truncates 256 to 0. -/
theorem create_multisig_threshold_count_truncates :
    (dedupAdj (sortMembers (List.range 256))).length = 256 ∧
    ¬ ((1 : Nat) = 0 ∨ (dedupAdj (sortMembers (List.range 256))).length < 1) ∧
    createMultisig 0 0 (List.range 256) 1 0 =
      .error (.custom .InvalidThreshold) := by
  refine ⟨by decide, by decide, by decide⟩

/-- C8 (amended): for a non-empty submitted member list,
`create_multisig` fails with `InvalidThreshold` exactly when the
threshold is 0 or exceeds the deduplicated member count truncated to
`u8` (reduced mod 256, per the source's `members.len() as u8`); for at
most 255 distinct members the truncated count is the count itself.
Every stored Multisig still satisfies `1 <= threshold <= |members|`. -/
theorem create_multisig_threshold_iff (creator nonce bump : Nat)
    (members0 : List Pubkey) (threshold : Nat) (hne : members0 ≠ []) :
    (createMultisig creator nonce members0 threshold bump =
        .error (.custom .InvalidThreshold) ↔
      threshold = 0 ∨
        (dedupAdj (sortMembers members0)).length % 256 < threshold) ∧
    (∀ ms, createMultisig creator nonce members0 threshold bump = .ok ms →
        1 ≤ ms.threshold ∧ ms.threshold ≤ ms.members.length) := by
  have h0 : dedupAdj (sortMembers members0) ≠ [] := by
    rw [Ne, dedupAdj_eq_nil_iff, sortMembers_eq_nil_iff]
    exact hne
  have hni : ¬ (dedupAdj (sortMembers members0)).isEmpty = true := by
    rw [List.isEmpty_iff]
    exact h0
  constructor
  · simp only [createMultisig]
    rw [if_neg hni]
    split
    · rename_i hth
      constructor
      · intro h
        exact absurd h (by simp)
      · intro h
        exfalso
        omega
    · rename_i hth
      constructor
      · intro _
        omega
      · intro _
        rfl
  · intro ms h
    simp only [createMultisig] at h
    rw [if_neg hni] at h
    split at h
    · rename_i hth
      rw [Except.ok.injEq] at h
      subst h
      have hmod : (dedupAdj (sortMembers members0)).length % 256 ≤
          (dedupAdj (sortMembers members0)).length := Nat.mod_le _ _
      constructor
      · exact hth.1
      · exact le_trans hth.2 hmod
    · exact absurd h (by simp)

/-- Witness for the amended C8 at concrete inputs. -/
theorem create_multisig_threshold_iff_witness :
    createMultisig 4 0 [1, 2] 3 0 = .error (.custom .InvalidThreshold) :=
  ((create_multisig_threshold_iff 4 0 0 [1, 2] 3 (by decide)).1).mpr (by decide)

/-- C10: `create_multisig`'s validation imposes no member-count cap:
every duplicate-free member list of length 1 to 255 with a threshold
between 1 and that length passes all checks and is stored in full,
even though the account allocation (`multisigSpace`) only reserves
room for `multisigMemberCapacity = 10` member entries. -/
theorem create_multisig_no_member_cap (creator nonce bump : Nat)
    (members0 : List Pubkey) (threshold : Nat) (hnd : members0.Nodup)
    (hlen1 : 1 ≤ members0.length) (hlen2 : members0.length ≤ 255)
    (ht1 : 1 ≤ threshold) (ht2 : threshold ≤ members0.length) :
    (∃ ms, createMultisig creator nonce members0 threshold bump = .ok ms ∧
      ms.members.length = members0.length) ∧
    multisigMemberCapacity = 10 ∧
    multisigSpace = 8 + 32 + 1 + 32 * multisigMemberCapacity + 1 + 4 + 1 := by
  have hsortnd : (sortMembers members0).Nodup :=
    (List.perm_insertionSort (· ≤ ·) members0).nodup_iff.mpr hnd
  have hded : dedupAdj (sortMembers members0) = sortMembers members0 :=
    dedupAdj_eq_self _ hsortnd
  have hlen : (dedupAdj (sortMembers members0)).length = members0.length := by
    rw [hded]
    exact (List.perm_insertionSort (· ≤ ·) members0).length_eq
  have hni : ¬ (dedupAdj (sortMembers members0)).isEmpty = true := by
    rw [List.isEmpty_iff]
    intro h
    rw [h] at hlen
    simp at hlen
    omega
  have hcond : 0 < threshold ∧ threshold ≤
      (dedupAdj (sortMembers members0)).length % 256 := by
    rw [hlen, Nat.mod_eq_of_lt (by omega)]
    omega
  have hok : createMultisig creator nonce members0 threshold bump =
      .ok { creator := creator, nonce := nonce,
            members := dedupAdj (sortMembers members0), threshold := threshold,
            proposals_count := 0, bump := bump } := by
    simp only [createMultisig]
    rw [if_neg hni, if_pos hcond]
  exact ⟨⟨_, hok, hlen⟩, rfl, rfl⟩

/-- Witness for C10: 11 distinct members (one more than the reserved
capacity) with threshold 5 pass validation. -/
theorem create_multisig_no_member_cap_witness :
    (∃ ms, createMultisig 9 0 (List.range 11) 5 0 = .ok ms ∧
      ms.members.length = (List.range 11).length) ∧
    multisigMemberCapacity = 10 ∧
    multisigSpace = 8 + 32 + 1 + 32 * multisigMemberCapacity + 1 + 4 + 1 :=
  create_multisig_no_member_cap 9 0 0 (List.range 11) 5 (by decide) (by decide)
    (by decide) (by decide) (by decide)

/-! ### Proposal creation -/

theorem runProposes_seeds (mKey : Pubkey) :
    ∀ (reqs : List (Pubkey × InstructionData)) (m : Multisig),
      m.proposals_count + reqs.length ≤ U32MOD →
      (∀ s ∈ (runProposes m mKey reqs).2, m.proposals_count ≤ s) ∧
      (runProposes m mKey reqs).2.Nodup := by
  intro reqs
  induction reqs with
  | nil =>
    intro m _
    simp [runProposes]
  | cons pr rest ih =>
    intro m h
    obtain ⟨proposer, ixd⟩ := pr
    rw [List.length_cons] at h
    by_cases hm : m.members.contains proposer = true
    · simp only [runProposes, proposeTransaction, if_pos hm]
      rcases Nat.lt_or_ge (m.proposals_count + 1) U32MOD with hc | hc
      · have hmod : (m.proposals_count + 1) % U32MOD = m.proposals_count + 1 :=
          Nat.mod_eq_of_lt hc
        obtain ⟨hall, hnd⟩ :=
          ih { m with proposals_count := (m.proposals_count + 1) % U32MOD }
            (by show (m.proposals_count + 1) % U32MOD + rest.length ≤ U32MOD
                rw [hmod]
                omega)
        have hall2 : ∀ s ∈ (runProposes
            { m with proposals_count := (m.proposals_count + 1) % U32MOD }
            mKey rest).2, m.proposals_count + 1 ≤ s := by
          intro s hs
          have h2 : (m.proposals_count + 1) % U32MOD ≤ s := hall s hs
          rw [hmod] at h2
          exact h2
        constructor
        · intro s hs
          rcases List.mem_cons.mp hs with h1 | h1
          · omega
          · have := hall2 s h1
            omega
        · refine List.nodup_cons.mpr ⟨?_, hnd⟩
          intro hmem
          have := hall2 _ hmem
          omega
      · have hrest : rest.length = 0 := by
          have : m.proposals_count + 1 ≥ U32MOD := hc
          omega
        have hnil : rest = [] := List.length_eq_zero.mp hrest
        subst hnil
        simp [runProposes]
    · simp only [runProposes, proposeTransaction, if_neg hm]
      exact ih m (by omega)

/-- C6: `propose_transaction` fails with `NotMember` for a non-member
proposer; on success the Proposal stores the call descriptor verbatim
with empty approvals, Pending status flags and proposer equal to the
caller, its address seed is the pre-increment `proposals_count`, and
the counter is then incremented by exactly one (as a `u32`); hence the
seed counters of successive successful creations on one Multisig are
pairwise distinct as long as the `u32` counter cannot wrap. -/
theorem propose_transaction_spec (m : Multisig) (mKey proposer : Pubkey)
    (ixd : InstructionData) (bump : Nat) :
    (proposer ∉ m.members →
      proposeTransaction m mKey proposer ixd bump =
        .error (.custom .NotMember)) ∧
    (∀ out, proposeTransaction m mKey proposer ixd bump = .ok out →
      proposer ∈ m.members ∧
      out.proposal = { multisig := mKey, proposer := proposer,
                       instruction := ixd, approvals := [], executed := false,
                       cancelled := false, bump := bump } ∧
      out.seedCounter = m.proposals_count ∧
      out.multisigAfter =
        { m with proposals_count := (m.proposals_count + 1) % U32MOD }) ∧
    (∀ (reqs : List (Pubkey × InstructionData)),
      m.proposals_count + reqs.length ≤ U32MOD →
      (runProposes m mKey reqs).2.Nodup) := by
  refine ⟨?_, ?_, ?_⟩
  · intro h
    simp [proposeTransaction, h]
  · intro out hok
    simp only [proposeTransaction] at hok
    split at hok
    · rename_i hm
      rw [Except.ok.injEq] at hok
      subst hok
      refine ⟨?_, rfl, rfl, rfl⟩
      simpa using hm
    · exact absurd hok (by simp)
  · intro reqs h
    exact (runProposes_seeds mKey reqs m h).2

/-- Witness for C6 at concrete inputs. -/
theorem propose_transaction_spec_witness :
    proposeTransaction
      { creator := 0, nonce := 0, members := [1, 2], threshold := 1,
        proposals_count := 0, bump := 0 } 5 3 ⟨9, [], []⟩ 0 =
      .error (.custom .NotMember) ∧
    (runProposes
      { creator := 0, nonce := 0, members := [1, 2], threshold := 1,
        proposals_count := 0, bump := 0 } 5 [(1, ⟨9, [], []⟩), (2, ⟨9, [], []⟩)]).2.Nodup :=
  ⟨(propose_transaction_spec
      { creator := 0, nonce := 0, members := [1, 2], threshold := 1,
        proposals_count := 0, bump := 0 } 5 3 ⟨9, [], []⟩ 0).1 (by decide),
   (propose_transaction_spec
      { creator := 0, nonce := 0, members := [1, 2], threshold := 1,
        proposals_count := 0, bump := 0 } 5 3 ⟨9, [], []⟩ 0).2.2
      [(1, ⟨9, [], []⟩), (2, ⟨9, [], []⟩)] (by decide)⟩

/-! ### Approval -/

theorem reachable_approvals_nodup :
    ∀ p : Proposal, ProposalReachable p → p.approvals.Nodup := by
  intro p h
  induction h with
  | created m mKey proposer ixd bump out hok =>
    simp only [proposeTransaction] at hok
    split at hok
    · rw [Except.ok.injEq] at hok
      subst hok
      simp
    · exact absurd hok (by simp)
  | approved m mKey q a p2 hreach hok ih =>
    simp only [approveTransaction] at hok
    split at hok
    · exact absurd hok (by simp)
    · split at hok
      · exact absurd hok (by simp)
      · split at hok
        · exact absurd hok (by simp)
        · split at hok
          · exact absurd hok (by simp)
          · rename_i hnc
            rw [Except.ok.injEq] at hok
            subst hok
            show (q.approvals ++ [a]).Nodup
            have ha : a ∉ q.approvals := by
              intro hmem
              exact hnc (by simpa using hmem)
            rw [(List.perm_append_singleton a q.approvals).nodup_iff]
            exact List.nodup_cons.mpr ⟨ha, ih⟩

/-- C5: for a Pending Proposal of the presented Multisig and a member
caller, `approve_transaction` fails with `AlreadyApproved` when the
caller is already in `approvals` (an error result: the rolled-back
transaction leaves `approvals` unchanged), and otherwise appends the
caller; consequently every Proposal reachable through the program has
duplicate-free `approvals`. -/
theorem approve_transaction_idempotent (m : Multisig) (mKey : Pubkey)
    (p : Proposal) (a : Pubkey) (hms : p.multisig = mKey)
    (hex : p.executed = false) (hcl : p.cancelled = false)
    (hmem : a ∈ m.members) :
    (a ∈ p.approvals →
      approveTransaction m mKey p a = .error (.custom .AlreadyApproved)) ∧
    (a ∉ p.approvals →
      approveTransaction m mKey p a =
        .ok { p with approvals := p.approvals ++ [a] }) ∧
    (∀ q, ProposalReachable q → q.approvals.Nodup) := by
  refine ⟨?_, ?_, fun q hq => reachable_approvals_nodup q hq⟩
  · intro h
    simp [approveTransaction, hms, hex, hcl, hmem, h]
  · intro h
    simp [approveTransaction, hms, hex, hcl, hmem, h]

/-- Witness for C5 at concrete inputs: approver 2 on a Pending
Proposal that already contains approval 2, then on one that does not. -/
theorem approve_transaction_idempotent_witness :
    approveTransaction
      { creator := 0, nonce := 0, members := [1, 2], threshold := 2,
        proposals_count := 1, bump := 0 } 5
      { multisig := 5, proposer := 1, instruction := ⟨9, [], []⟩,
        approvals := [2], executed := false, cancelled := false, bump := 0 } 2 =
      .error (.custom .AlreadyApproved) ∧
    approveTransaction
      { creator := 0, nonce := 0, members := [1, 2], threshold := 2,
        proposals_count := 1, bump := 0 } 5
      { multisig := 5, proposer := 1, instruction := ⟨9, [], []⟩,
        approvals := [1], executed := false, cancelled := false, bump := 0 } 2 =
      .ok { multisig := 5, proposer := 1, instruction := ⟨9, [], []⟩,
            approvals := [1, 2], executed := false, cancelled := false, bump := 0 } :=
  ⟨(approve_transaction_idempotent
      { creator := 0, nonce := 0, members := [1, 2], threshold := 2,
        proposals_count := 1, bump := 0 } 5
      { multisig := 5, proposer := 1, instruction := ⟨9, [], []⟩,
        approvals := [2], executed := false, cancelled := false, bump := 0 } 2
      rfl rfl rfl (by decide)).1 (by decide),
   (approve_transaction_idempotent
      { creator := 0, nonce := 0, members := [1, 2], threshold := 2,
        proposals_count := 1, bump := 0 } 5
      { multisig := 5, proposer := 1, instruction := ⟨9, [], []⟩,
        approvals := [1], executed := false, cancelled := false, bump := 0 } 2
      rfl rfl rfl (by decide)).2.1 (by decide)⟩

/-! ### Terminal proposals, quorum, execution and cancellation -/

/-- C4: a Proposal whose status flags are terminal (executed or
cancelled) is rejected with `AlreadyProcessed` by every subsequent
approve, execute or cancel call presenting its owning Multisig, and
since each such call is an error (a rolled-back transaction leaving
the record unchanged), the Proposal is never observable as Pending
again. -/
theorem terminal_rejects_all (m : Multisig) (mKey : Pubkey) (p : Proposal)
    (hms : p.multisig = mKey) (hterm : p.executed = true ∨ p.cancelled = true) :
    statusOf p ≠ .Pending ∧
    (∀ a, approveTransaction m mKey p a = .error (.custom .AlreadyProcessed)) ∧
    (∀ rem, executeTransaction m mKey p rem =
      .error (.custom .AlreadyProcessed)) ∧
    (∀ c, cancelTransaction m mKey p c = .error (.custom .AlreadyProcessed)) ∧
    (∀ rem, proposalAfterExecute m mKey p rem = some p) ∧
    (∀ c, proposalAfterCancel m mKey p c = some p) := by
  have hor : (p.executed || p.cancelled) = true := by
    rcases hterm with h | h <;> simp [h]
  have hst : statusOf p ≠ .Pending := by
    unfold statusOf
    rcases hterm with h | h
    · rw [if_pos h]
      simp
    · by_cases he : p.executed = true
      · rw [if_pos he]
        simp
      · rw [if_neg he, if_pos h]
        simp
  have hap : ∀ a, approveTransaction m mKey p a =
      .error (.custom .AlreadyProcessed) := by
    intro a
    simp [approveTransaction, hms, hor]
  have hexe : ∀ rem, executeTransaction m mKey p rem =
      .error (.custom .AlreadyProcessed) := by
    intro rem
    simp [executeTransaction, hms, hor]
  have hcan : ∀ c, cancelTransaction m mKey p c =
      .error (.custom .AlreadyProcessed) := by
    intro c
    simp [cancelTransaction, hms, hor]
  refine ⟨hst, hap, hexe, hcan, ?_, ?_⟩
  · intro rem
    simp [proposalAfterExecute, hexe rem]
  · intro c
    simp [proposalAfterCancel, hcan c]

/-- Witness for C4 at concrete inputs: an executed Proposal rejects
all three operations. -/
theorem terminal_rejects_all_witness :
    approveTransaction
      { creator := 0, nonce := 0, members := [1, 2], threshold := 1,
        proposals_count := 1, bump := 0 } 5
      { multisig := 5, proposer := 1, instruction := ⟨9, [], []⟩,
        approvals := [1], executed := true, cancelled := false, bump := 0 } 2 =
      .error (.custom .AlreadyProcessed) ∧
    executeTransaction
      { creator := 0, nonce := 0, members := [1, 2], threshold := 1,
        proposals_count := 1, bump := 0 } 5
      { multisig := 5, proposer := 1, instruction := ⟨9, [], []⟩,
        approvals := [1], executed := true, cancelled := false, bump := 0 } [] =
      .error (.custom .AlreadyProcessed) ∧
    cancelTransaction
      { creator := 0, nonce := 0, members := [1, 2], threshold := 1,
        proposals_count := 1, bump := 0 } 5
      { multisig := 5, proposer := 1, instruction := ⟨9, [], []⟩,
        approvals := [1], executed := true, cancelled := false, bump := 0 } 1 =
      .error (.custom .AlreadyProcessed) :=
  ⟨(terminal_rejects_all
      { creator := 0, nonce := 0, members := [1, 2], threshold := 1,
        proposals_count := 1, bump := 0 } 5
      { multisig := 5, proposer := 1, instruction := ⟨9, [], []⟩,
        approvals := [1], executed := true, cancelled := false, bump := 0 }
      rfl (Or.inl rfl)).2.1 2,
   (terminal_rejects_all
      { creator := 0, nonce := 0, members := [1, 2], threshold := 1,
        proposals_count := 1, bump := 0 } 5
      { multisig := 5, proposer := 1, instruction := ⟨9, [], []⟩,
        approvals := [1], executed := true, cancelled := false, bump := 0 }
      rfl (Or.inl rfl)).2.2.1 [],
   (terminal_rejects_all
      { creator := 0, nonce := 0, members := [1, 2], threshold := 1,
        proposals_count := 1, bump := 0 } 5
      { multisig := 5, proposer := 1, instruction := ⟨9, [], []⟩,
        approvals := [1], executed := true, cancelled := false, bump := 0 }
      rfl (Or.inl rfl)).2.2.2.1 1⟩

/-- C1: a Pending Proposal of the presented Multisig is marked
Executed by `execute_transaction` only if the number of distinct
identities in its approvals (recomputed as a set via
`distinctApprovalCount`, not the stored length) reaches the Multisig's
threshold; below the threshold execution fails with `NotExecutable`. -/
theorem execute_transaction_quorum (m : Multisig) (mKey : Pubkey)
    (p : Proposal) (rem : List AccountInfoM) (hms : p.multisig = mKey)
    (hex : p.executed = false) (hcl : p.cancelled = false) :
    (distinctApprovalCount p < m.threshold →
      executeTransaction m mKey p rem = .error (.custom .NotExecutable)) ∧
    (∀ eff, executeTransaction m mKey p rem = .ok eff →
      m.threshold ≤ distinctApprovalCount p ∧
      eff.proposalAtInvoke.executed = true) := by
  constructor
  · intro h
    simp [executeTransaction, hms, hex, hcl, h]
  · intro eff heff
    simp only [executeTransaction] at heff
    rw [if_neg (by simp [hms])] at heff
    rw [if_neg (by simp [hex, hcl])] at heff
    by_cases hq : distinctApprovalCount p < m.threshold
    · rw [if_pos hq] at heff
      exact absurd heff (by simp)
    · refine ⟨Nat.le_of_not_lt hq, ?_⟩
      rw [if_neg hq] at heff
      split at heff
      · exact absurd heff (by simp)
      · split at heff
        · rw [Except.ok.injEq] at heff
          subst heff
          rfl
        · exact absurd heff (by simp)

/-- Witness for C1 at concrete inputs: stored approvals `[2, 2]` have
length 2 but only 1 distinct identity, so with threshold 2 the
execution fails `NotExecutable`. -/
theorem execute_transaction_quorum_witness :
    executeTransaction
      { creator := 0, nonce := 0, members := [1, 2], threshold := 2,
        proposals_count := 1, bump := 0 } 5
      { multisig := 5, proposer := 1, instruction := ⟨9, [], []⟩,
        approvals := [2, 2], executed := false, cancelled := false, bump := 0 } [] =
      .error (.custom .NotExecutable) :=
  (execute_transaction_quorum
      { creator := 0, nonce := 0, members := [1, 2], threshold := 2,
        proposals_count := 1, bump := 0 } 5
      { multisig := 5, proposer := 1, instruction := ⟨9, [], []⟩,
        approvals := [2, 2], executed := false, cancelled := false, bump := 0 } []
      rfl rfl rfl).1 (by decide)

/-- C2: when all of `execute_transaction`'s preconditions hold, the
result marks the Proposal executed before the delegation and forwards
an instruction built exclusively from the stored call descriptor (its
target program id, its access-descriptors converted field-for-field —
preserving is-signer and is-writable — and its payload); the
caller-supplied contexts `rem` do not appear in the result, which
proves they only ever validate identity correspondence. -/
theorem execute_transaction_forwards_stored (m : Multisig) (mKey : Pubkey)
    (p : Proposal) (rem : List AccountInfoM) (hms : p.multisig = mKey)
    (hex : p.executed = false) (hcl : p.cancelled = false)
    (hq : m.threshold ≤ distinctApprovalCount p)
    (hlen : (p.instruction.accounts.map toAccountMeta).length = rem.length)
    (hkeys : ((p.instruction.accounts.map toAccountMeta).zip rem).all
      (fun pr => pr.1.pubkey == pr.2.key) = true) :
    executeTransaction m mKey p rem =
      .ok { proposalAtInvoke := { p with executed := true },
            forwarded := { program_id := p.instruction.program_id,
                           accounts := p.instruction.accounts.map toAccountMeta,
                           data := p.instruction.data },
            closedTo := mKey } ∧
    (∀ s : SerializableAccountMeta, toAccountMeta s =
      { pubkey := s.pubkey, is_signer := s.is_signer,
        is_writable := s.is_writable }) := by
  refine ⟨?_, fun s => rfl⟩
  simp only [executeTransaction]
  rw [if_neg (by simp [hms])]
  rw [if_neg (by simp [hex, hcl])]
  rw [if_neg (Nat.not_lt.mpr hq)]
  rw [if_neg (by simp [hlen])]
  rw [if_pos hkeys]

/-- Witness for C2 at concrete inputs: the supplied context has the
same pubkey as the stored descriptor but opposite is-signer and
is-writable flags, and the forwarded instruction still carries the
stored flags. -/
theorem execute_transaction_forwards_stored_witness :
    executeTransaction
      { creator := 0, nonce := 0, members := [1, 2], threshold := 1,
        proposals_count := 1, bump := 0 } 5
      { multisig := 5, proposer := 1,
        instruction := ⟨9, [⟨7, true, false⟩], [1, 2]⟩,
        approvals := [2], executed := false, cancelled := false, bump := 0 }
      [⟨7, false, true⟩] =
      .ok { proposalAtInvoke :=
              { multisig := 5, proposer := 1,
                instruction := ⟨9, [⟨7, true, false⟩], [1, 2]⟩,
                approvals := [2], executed := true, cancelled := false,
                bump := 0 },
            forwarded := ⟨9, [⟨7, true, false⟩], [1, 2]⟩,
            closedTo := 5 } :=
  (execute_transaction_forwards_stored
      { creator := 0, nonce := 0, members := [1, 2], threshold := 1,
        proposals_count := 1, bump := 0 } 5
      { multisig := 5, proposer := 1,
        instruction := ⟨9, [⟨7, true, false⟩], [1, 2]⟩,
        approvals := [2], executed := false, cancelled := false, bump := 0 }
      [⟨7, false, true⟩] rfl rfl rfl (by decide) (by decide) (by decide)).1

/-- C9: `cancel_transaction` fails with `AlreadyProcessed` when the
Proposal is not Pending and with `NotProposer` when the caller is not
its proposer; when both preconditions hold it succeeds, retiring the
Proposal (the terminal Cancelled state: the closed record is `none`
afterwards), reclaiming its storage back to the Multisig
(`closedTo = mKey`) and forwarding no external call
(`forwarded = none`). -/
theorem cancel_transaction_spec (m : Multisig) (mKey : Pubkey)
    (p : Proposal) (canceller : Pubkey) (hms : p.multisig = mKey) :
    (p.executed = true ∨ p.cancelled = true →
      cancelTransaction m mKey p canceller =
        .error (.custom .AlreadyProcessed)) ∧
    (p.executed = false → p.cancelled = false → p.proposer ≠ canceller →
      cancelTransaction m mKey p canceller = .error (.custom .NotProposer)) ∧
    (p.executed = false → p.cancelled = false → p.proposer = canceller →
      cancelTransaction m mKey p canceller =
        .ok { closedTo := mKey, forwarded := none } ∧
      proposalAfterCancel m mKey p canceller = none) := by
  refine ⟨?_, ?_, ?_⟩
  · intro hterm
    have hor : (p.executed || p.cancelled) = true := by
      rcases hterm with h | h <;> simp [h]
    simp [cancelTransaction, hms, hor]
  · intro hex hcl hnp
    simp [cancelTransaction, hms, hex, hcl, hnp]
  · intro hex hcl hp
    have hok : cancelTransaction m mKey p canceller =
        .ok { closedTo := mKey, forwarded := none } := by
      simp [cancelTransaction, hms, hex, hcl, hp]
    exact ⟨hok, by simp [proposalAfterCancel, hok]⟩

/-- Witness for C9 at concrete inputs. -/
theorem cancel_transaction_spec_witness :
    cancelTransaction
      { creator := 0, nonce := 0, members := [1, 2], threshold := 1,
        proposals_count := 1, bump := 0 } 5
      { multisig := 5, proposer := 1, instruction := ⟨9, [], []⟩,
        approvals := [], executed := false, cancelled := false, bump := 0 } 2 =
      .error (.custom .NotProposer) ∧
    cancelTransaction
      { creator := 0, nonce := 0, members := [1, 2], threshold := 1,
        proposals_count := 1, bump := 0 } 5
      { multisig := 5, proposer := 1, instruction := ⟨9, [], []⟩,
        approvals := [], executed := false, cancelled := false, bump := 0 } 1 =
      .ok { closedTo := 5, forwarded := none } :=
  ⟨(cancel_transaction_spec
      { creator := 0, nonce := 0, members := [1, 2], threshold := 1,
        proposals_count := 1, bump := 0 } 5
      { multisig := 5, proposer := 1, instruction := ⟨9, [], []⟩,
        approvals := [], executed := false, cancelled := false, bump := 0 } 2
      rfl).2.1 rfl rfl (by decide),
   ((cancel_transaction_spec
      { creator := 0, nonce := 0, members := [1, 2], threshold := 1,
        proposals_count := 1, bump := 0 } 5
      { multisig := 5, proposer := 1, instruction := ⟨9, [], []⟩,
        approvals := [], executed := false, cancelled := false, bump := 0 } 1
      rfl).2.2 rfl rfl rfl).1⟩

theorem zip_all_keys_iff :
    ∀ (metas : List AccountMeta) (infos : List AccountInfoM),
      metas.length = infos.length →
      (((metas.zip infos).all fun pr => pr.1.pubkey == pr.2.key) = true ↔
        ∀ (i : Nat) (h1 : i < metas.length) (h2 : i < infos.length),
          (metas.get ⟨i, h1⟩).pubkey = (infos.get ⟨i, h2⟩).key) := by
  intro metas
  induction metas with
  | nil =>
    intro infos hlen
    cases infos with
    | nil => simp
    | cons b t2 => simp at hlen
  | cons a t ih =>
    intro infos hlen
    cases infos with
    | nil => simp at hlen
    | cons b t2 =>
      have hlen2 : t.length = t2.length := by simpa using hlen
      simp only [List.zip_cons_cons, List.all_cons, Bool.and_eq_true, beq_iff_eq]
      rw [ih t2 hlen2]
      constructor
      · rintro ⟨hhead, htail⟩ i h1 h2
        cases i with
        | zero => exact hhead
        | succ j => exact htail j (by simpa using h1) (by simpa using h2)
      · intro hall
        refine ⟨hall 0 (by simp) (by simp), ?_⟩
        intro j h1 h2
        exact hall (j + 1) (by simpa using h1) (by simpa using h2)

/-- The handler's remaining-accounts validation (length check plus the
positional `meta.pubkey == *info.key` loop) holds exactly when the
supplied context list matches the stored access-descriptors in length
and in every positional identity. -/
theorem accountsCheck_iff (p : Proposal) (rem : List AccountInfoM) :
    ((p.instruction.accounts.map toAccountMeta).length = rem.length ∧
      ((p.instruction.accounts.map toAccountMeta).zip rem).all
        (fun pr => pr.1.pubkey == pr.2.key) = true) ↔
    (rem.length = p.instruction.accounts.length ∧
      ∀ (i : Nat) (h1 : i < p.instruction.accounts.length)
        (h2 : i < rem.length),
        (p.instruction.accounts.get ⟨i, h1⟩).pubkey =
          (rem.get ⟨i, h2⟩).key) := by
  constructor
  · rintro ⟨hl, hall⟩
    have hl2 : rem.length = p.instruction.accounts.length := by
      rw [← hl, List.length_map]
    refine ⟨hl2, ?_⟩
    intro i h1 h2
    have h1m : i < (p.instruction.accounts.map toAccountMeta).length := by
      rw [List.length_map]
      exact h1
    have hkey := (zip_all_keys_iff _ _ hl).mp hall i h1m h2
    rw [← hkey]
    simp [List.get_eq_getElem, List.getElem_map, toAccountMeta]
  · rintro ⟨hl2, hidx⟩
    have hl : (p.instruction.accounts.map toAccountMeta).length = rem.length := by
      rw [List.length_map, hl2]
    refine ⟨hl, ?_⟩
    rw [zip_all_keys_iff _ _ hl]
    intro i h1m h2
    have h1 : i < p.instruction.accounts.length := by
      rw [List.length_map] at h1m
      exact h1m
    have hkey := hidx i h1 h2
    rw [← hkey]
    simp [List.get_eq_getElem, List.getElem_map, toAccountMeta]

/-- C3: once a Pending, quorum-satisfying Proposal of the presented
Multisig reaches the account-validation stage, `execute_transaction`
fails with `AccountMismatch` exactly when the caller-supplied context
list differs from the stored access-descriptors in length or in some
positional identity — differing is-signer or is-writable flags alone
never do (the right-hand side mentions only identities); and on an
`AccountMismatch` failure the persisted Proposal is unchanged and
still Pending. -/
theorem execute_transaction_account_mismatch (m : Multisig) (mKey : Pubkey)
    (p : Proposal) (rem : List AccountInfoM) (hms : p.multisig = mKey)
    (hex : p.executed = false) (hcl : p.cancelled = false)
    (hq : m.threshold ≤ distinctApprovalCount p) :
    (executeTransaction m mKey p rem = .error (.custom .AccountMismatch) ↔
      ¬ (rem.length = p.instruction.accounts.length ∧
        ∀ (i : Nat) (h1 : i < p.instruction.accounts.length)
          (h2 : i < rem.length),
          (p.instruction.accounts.get ⟨i, h1⟩).pubkey =
            (rem.get ⟨i, h2⟩).key)) ∧
    (executeTransaction m mKey p rem = .error (.custom .AccountMismatch) →
      proposalAfterExecute m mKey p rem = some p ∧ statusOf p = .Pending) := by
  have hpend : statusOf p = .Pending := by
    simp [statusOf, hex, hcl]
  have hE : executeTransaction m mKey p rem =
      (if (p.instruction.accounts.map toAccountMeta).length ≠ rem.length then
        .error (.custom .AccountMismatch)
      else if ((p.instruction.accounts.map toAccountMeta).zip rem).all
          (fun pr => pr.1.pubkey == pr.2.key) then
        .ok { proposalAtInvoke := { p with executed := true },
              forwarded := { program_id := p.instruction.program_id,
                             accounts := p.instruction.accounts.map toAccountMeta,
                             data := p.instruction.data },
              closedTo := mKey }
      else .error (.custom .AccountMismatch)) := by
    simp only [executeTransaction]
    rw [if_neg (by simp [hms])]
    rw [if_neg (by simp [hex, hcl])]
    rw [if_neg (Nat.not_lt.mpr hq)]
  by_cases hl : (p.instruction.accounts.map toAccountMeta).length = rem.length
  · rw [if_neg (by simp [hl])] at hE
    by_cases hall : ((p.instruction.accounts.map toAccountMeta).zip rem).all
        (fun pr => pr.1.pubkey == pr.2.key) = true
    · rw [if_pos hall] at hE
      constructor
      · rw [hE]
        simp only [iff_iff_implies_and_implies]
        constructor
        · intro hco
          exact absurd hco (by simp)
        · intro hco
          exact absurd (accountsCheck_iff p rem |>.mp ⟨hl, hall⟩) hco
      · intro hco
        rw [hE] at hco
        exact absurd hco (by simp)
    · rw [if_neg hall] at hE
      constructor
      · rw [hE]
        constructor
        · intro _ hco
          exact hall ((accountsCheck_iff p rem |>.mpr hco).2)
        · intro _
          rfl
      · intro _
        refine ⟨?_, hpend⟩
        simp [proposalAfterExecute, hE]
  · rw [if_pos hl] at hE
    constructor
    · rw [hE]
      constructor
      · intro _ hco
        exact hl ((accountsCheck_iff p rem |>.mpr hco).1)
      · intro _
        rfl
    · intro _
      refine ⟨?_, hpend⟩
      simp [proposalAfterExecute, hE]

/-- Witness for C3 at concrete inputs: the supplied context differs
only in its positional identity (7 stored vs 8 supplied, flags equal),
and execution fails `AccountMismatch` while the Proposal stays
Pending. -/
theorem execute_transaction_account_mismatch_witness :
    executeTransaction
      { creator := 0, nonce := 0, members := [1, 2], threshold := 1,
        proposals_count := 1, bump := 0 } 5
      { multisig := 5, proposer := 1,
        instruction := ⟨9, [⟨7, true, false⟩], [1, 2]⟩,
        approvals := [2], executed := false, cancelled := false, bump := 0 }
      [⟨8, true, false⟩] = .error (.custom .AccountMismatch) ∧
    proposalAfterExecute
      { creator := 0, nonce := 0, members := [1, 2], threshold := 1,
        proposals_count := 1, bump := 0 } 5
      { multisig := 5, proposer := 1,
        instruction := ⟨9, [⟨7, true, false⟩], [1, 2]⟩,
        approvals := [2], executed := false, cancelled := false, bump := 0 }
      [⟨8, true, false⟩] =
      some { multisig := 5, proposer := 1,
             instruction := ⟨9, [⟨7, true, false⟩], [1, 2]⟩,
             approvals := [2], executed := false, cancelled := false,
             bump := 0 } := by
  have hmm := execute_transaction_account_mismatch
      { creator := 0, nonce := 0, members := [1, 2], threshold := 1,
        proposals_count := 1, bump := 0 } 5
      { multisig := 5, proposer := 1,
        instruction := ⟨9, [⟨7, true, false⟩], [1, 2]⟩,
        approvals := [2], executed := false, cancelled := false, bump := 0 }
      [⟨8, true, false⟩] rfl rfl rfl (by decide)
  have herr := hmm.1.mpr (by
    intro hco
    have := hco.2 0 (by decide) (by decide)
    simp at this)
  exact ⟨herr, (hmm.2 herr).1⟩

end SolanaMultisig
